import Mathlib

/-!
Shallow embedding of the InteliCare Router (src/Router.ts) and proofs about
its route registration, matching, parameter extraction and dispatch logic.

JavaScript-specific behaviour is modelled explicitly:
  * `String.prototype.split('/')` is `jsSplit` (always returns at least one
    piece; an empty string splits to `[""]`).
  * Absent (`undefined`) values are `Option`: `Context.path` is the
    `context.bindingData.path` binding, which may be absent.
  * the expression `context.bindingData.path && context.bindingData.path.split('/')`
    yields `undefined` when the path is absent, the empty string `''` (a
    falsy string, not an array) when the path is `''`, and the split array
    otherwise; `UrlParts` has one constructor per shape, and indexing
    (`urlParts[index]`) throws a TypeError exactly on the `undefined` shape.
  * a JS `Map`/plain object keeps insertion order and overwrites in place on
    an existing key: `mapSet` / `objSet`.
  * an `async` handler either resolves (`Except.ok`) or rejects
    (`Except.error`); `route` itself can also throw the TypeError above, so
    its failures live in `JsError`.
-/

set_option autoImplicit false

/-- JS `string.split('/')` on the character list, with the accumulator kept
reversed. Always returns at least one (possibly empty) piece. -/
def splitChars : List Char → List Char → List String
  | [], acc => [String.mk acc.reverse]
  | c :: cs, acc =>
    if c = '/' then String.mk acc.reverse :: splitChars cs []
    else splitChars cs (c :: acc)

/-- JS `s.split('/')`. -/
def jsSplit (s : String) : List String := splitChars s.data []

/-- The `HttpMethod` union type of `@azure/functions`. -/
inductive HttpMethod where
  | GET | POST | DELETE | HEAD | PATCH | PUT | OPTIONS | TRACE | CONNECT
deriving DecidableEq, Repr

/-- The string a method compares and concatenates as. -/
def HttpMethod.str : HttpMethod → String
  | .GET => "GET"
  | .POST => "POST"
  | .DELETE => "DELETE"
  | .HEAD => "HEAD"
  | .PATCH => "PATCH"
  | .PUT => "PUT"
  | .OPTIONS => "OPTIONS"
  | .TRACE => "TRACE"
  | .CONNECT => "CONNECT"

/-- A JS value that may be `undefined`, `null`, or a proper value; used for
the optional `body` of a response. -/
inductive JsVal (β : Type) where
  | undef
  | null
  | val (b : β)
deriving DecidableEq, Repr

/-- The `HttpResponse<T>` interface: optional `headers`, `status`, optional
`body` (absent = `undefined`). -/
structure HttpResponse (β : Type) where
  headers : Option (List (String × String)) := none
  status : Nat
  body : JsVal β
deriving DecidableEq, Repr

/-- The slice of the Azure `Context` the router reads: `context.req.method`
and `context.bindingData.path` (absent when the wildcard captured nothing). -/
structure Context where
  method : HttpMethod
  path : Option String
deriving DecidableEq, Repr

/-- The `params` object handed to a handler: a JS object in insertion order;
a value can be `undefined` (e.g. when the request path is the empty string). -/
abbrev ParamsMap := List (String × Option String)

/-- JS `s.startsWith(c)` for a single character: the first character is `c`. -/
def jsStartsWith (s : String) (c : Char) : Bool :=
  s.data.head? == some c

/-- JS `s.endsWith(c)` for a single character: the last character is `c`. -/
def jsEndsWith (s : String) (c : Char) : Bool :=
  s.data.getLast? == some c

/-- JS object property assignment `o[k] = v`: overwrite in place when the key
exists, else append. -/
def objSet (o : ParamsMap) (k : String) (v : Option String) : ParamsMap :=
  if o.any (fun e => e.1 == k) then
    o.map (fun e => if e.1 == k then (k, v) else e)
  else o ++ [(k, v)]

/-- A registered route: the data captured by the `test` closure built in
`addRoute` (the registered method and the pattern segments after
`pathParts.shift()`), together with the handler. -/
structure Route (β ε : Type) where
  method : HttpMethod
  pathParts : List String
  handler : Context → ParamsMap → Except ε (HttpResponse β)

/-- The loop of the `test` closure: for each pattern part, a literal
(`!part.startsWith('(')`) must equal `urlParts[index]`; afterwards `index`
must equal `urlParts.length`. -/
def testLoop (pathParts urlParts : List String) (index : Nat) : Bool :=
  match pathParts with
  | [] => index == urlParts.length
  | part :: rest =>
    if ¬ jsStartsWith part '(' ∧ ¬ urlParts.get? index = some part then false
    else testLoop rest urlParts (index + 1)

/-- The stored `test(requestMethod, url = '')` predicate: method must match,
then the lockstep segment walk over `url.split('/')` (an absent `url`
defaults to `''`). -/
def Route.test {β ε : Type} (r : Route β ε) (requestMethod : HttpMethod)
    (url : Option String) : Bool :=
  if requestMethod ≠ r.method then false
  else testLoop r.pathParts (jsSplit (url.getD "")) 0

/-- The router's backing store `routeHandlers : Map<string, Route>`,
in insertion order. -/
abbrev Router (β ε : Type) := List (String × Route β ε)

/-- JS `Map.prototype.set`: overwrite in place when the key exists (keeping
its position), else append. -/
def mapSet {β ε : Type} (m : Router β ε) (k : String) (v : Route β ε) :
    Router β ε :=
  if m.any (fun e => e.1 == k) then
    m.map (fun e => if e.1 == k then (k, v) else e)
  else m ++ [(k, v)]

/-- `Router.addRoute(method, path, handler)`: split the pattern, drop the
leading piece (`shift`), store under the key `method + path`. -/
def addRoute {β ε : Type} (router : Router β ε) (method : HttpMethod)
    (path : String) (handler : Context → ParamsMap → Except ε (HttpResponse β)) :
    Router β ε :=
  mapSet router (method.str ++ path) ⟨method, (jsSplit path).tail, handler⟩

/-- The three shapes `const urlParts = context.bindingData.path &&
context.bindingData.path.split('/')` can take: `undefined` (absent path),
the falsy string `''` (empty path), or the split array. -/
inductive UrlParts where
  | undef
  | emptyStr
  | parts (l : List String)
deriving DecidableEq, Repr

/-- Evaluate that JS expression on the optional path. -/
def mkUrlParts : Option String → UrlParts
  | none => .undef
  | some s => if s = "" then .emptyStr else .parts (jsSplit s)

/-- JS indexing `urlParts[index]`: throws a TypeError on `undefined`;
yields `undefined` on any index of `''`; yields the element (or `undefined`
out of range) on an array. -/
def urlIndex : UrlParts → Nat → Except Unit (Option String)
  | .undef, _ => .error ()
  | .emptyStr, _ => .ok none
  | .parts l, i => .ok (l.get? i)

/-- `part.replace(/[()]/g, '')`: delete every parenthesis character. -/
def stripParens (s : String) : String :=
  String.mk (s.data.filter (fun c => ¬ (c = '(' ∨ c = ')')))

/-- The failures `route` can produce: its own TypeError (indexing an
`undefined` `urlParts`), or the selected handler's rejection, unchanged. -/
inductive JsError (ε : Type) where
  | typeError
  | handlerError (e : ε)
deriving DecidableEq, Repr

/-- The parameter-extraction loop in `route`: walk the key-derived pattern
parts; on a part starting with `(`, read `urlParts[index]` (which can throw)
and assign `params[name] = value`. -/
def extractLoop (pathParts : List String) (urlParts : UrlParts)
    (params : ParamsMap) (index : Nat) : Except Unit ParamsMap :=
  match pathParts with
  | [] => .ok params
  | part :: rest =>
    if jsStartsWith part '(' then
      match urlIndex urlParts index with
      | .error e => .error e
      | .ok v => extractLoop rest urlParts (objSet params (stripParens part) v) (index + 1)
    else extractLoop rest urlParts params (index + 1)

/-- Parameter extraction starting from the fresh `const params = {}`. -/
def extractParams (pathParts : List String) (urlParts : UrlParts) :
    Except Unit ParamsMap :=
  extractLoop pathParts urlParts [] 0

/-- The body of `route`'s match branch: re-derive the pattern parts from the
stored key (`key.split('/')` then `shift`), extract parameters, and invoke
the handler with the request context and the params object. -/
def dispatch {β ε : Type} (key : String) (r : Route β ε) (ctx : Context) :
    Except (JsError ε) (HttpResponse β) :=
  match extractParams ((jsSplit key).tail) (mkUrlParts ctx.path) with
  | .error _ => .error .typeError
  | .ok params => (r.handler ctx params).mapError .handlerError

/-- The literal `{ status: NOT_FOUND, body: null }` returned when no route
matches. -/
def notFound {β : Type} : HttpResponse β :=
  { status := 404, body := .null }

/-- `Router.route(context)`: scan the stored routes in insertion order; on
the first whose `test` accepts the request, dispatch to it; otherwise return
the not-found response. -/
def route {β ε : Type} : Router β ε → Context → Except (JsError ε) (HttpResponse β)
  | [], _ => .ok notFound
  | (key, r) :: rest, ctx =>
    if r.test ctx.method ctx.path then dispatch key r ctx
    else route rest ctx

/-- The first stored route whose predicate accepts the request, with its key:
the route `route` dispatches to (`none` when no handler is invoked). -/
def selectRoute {β ε : Type} : Router β ε → Context → Option (String × Route β ε)
  | [], _ => none
  | (key, r) :: rest, ctx =>
    if r.test ctx.method ctx.path then some (key, r)
    else selectRoute rest ctx

/-- State-threaded transcription of `route`'s loop: the backing store is
carried through every step; no step of the source writes to it. -/
def routeLoop {β ε : Type} (entries : Router β ε) (store : Router β ε)
    (ctx : Context) : Except (JsError ε) (HttpResponse β) × Router β ε :=
  match entries with
  | [] => (.ok notFound, store)
  | (key, r) :: rest =>
    if r.test ctx.method ctx.path then (dispatch key r ctx, store)
    else routeLoop rest store ctx

/-- `route` with the router state made explicit: the response together with
the route collection as it stands afterwards. -/
def routeSt {β ε : Type} (router : Router β ε) (ctx : Context) :
    Except (JsError ε) (HttpResponse β) × Router β ε :=
  routeLoop router router ctx

/-- Names bound by the parameter segments of a pattern, in order. -/
def paramNames (pathParts : List String) : List String :=
  (pathParts.filter (fun part => jsStartsWith part '(')).map stripParens

/-- The association list of (parameter name, request segment at that index)
pairs a pattern yields against a segment array, in pattern order. -/
def expectedParams (pathParts : List String) (l : List String) (index : Nat) :
    ParamsMap :=
  match pathParts with
  | [] => []
  | part :: rest =>
    if jsStartsWith part '(' then
      (stripParens part, l.get? index) :: expectedParams rest l (index + 1)
    else expectedParams rest l (index + 1)

/-- A concrete handler that echoes the params object it received in the
response body; used to observe what the router passes to handlers. -/
def echoHandler : Context → ParamsMap → Except Unit (HttpResponse ParamsMap) :=
  fun _ params => .ok { status := 200, body := .val params }

/-- A concrete handler that resolves with a fixed empty response. -/
def okHandler : Context → ParamsMap → Except Unit (HttpResponse ParamsMap) :=
  fun _ _ => .ok { status := 204, body := .undef }

/-- A concrete handler whose asynchronous operation rejects. -/
def failHandler : Context → ParamsMap → Except Nat (HttpResponse Unit) :=
  fun _ _ => .error 42

/-! ### Lemmas about `jsSplit` -/

theorem splitChars_ne_nil (cs acc : List Char) : splitChars cs acc ≠ [] := by
  induction cs generalizing acc with
  | nil => simp [splitChars]
  | cons c cs ih =>
    simp only [splitChars]
    split
    · simp
    · exact ih _

theorem splitChars_tail_indep (cs : List Char) (acc₁ acc₂ : List Char) :
    (splitChars cs acc₁).tail = (splitChars cs acc₂).tail := by
  induction cs generalizing acc₁ acc₂ with
  | nil => simp [splitChars]
  | cons c cs ih =>
    simp only [splitChars]
    split
    · simp
    · exact ih _ _

theorem splitChars_append_of_no_slash (xs ys : List Char) (hx : '/' ∉ xs)
    (acc : List Char) : ∃ acc2, splitChars (xs ++ ys) acc = splitChars ys acc2 := by
  induction xs generalizing acc with
  | nil => exact ⟨acc, rfl⟩
  | cons x xs ih =>
    have hx1 : ¬ x = '/' := by
      intro h
      subst h
      exact hx (List.mem_cons_self _ _)
    have hx2 : '/' ∉ xs := fun h => hx (List.mem_cons_of_mem _ h)
    simp only [List.cons_append, splitChars, if_neg hx1]
    exact ih hx2 _

theorem jsSplit_append_tail (m p : String) (hm : '/' ∉ m.data) :
    (jsSplit (m ++ p)).tail = (jsSplit p).tail := by
  unfold jsSplit
  rw [String.data_append]
  obtain ⟨acc2, hacc⟩ := splitChars_append_of_no_slash m.data p.data hm []
  rw [hacc]
  exact splitChars_tail_indep _ _ _

theorem methodStr_no_slash (m : HttpMethod) : '/' ∉ m.str.data := by
  cases m <;> decide

/-- The pattern parts `route` re-derives from a stored key coincide with the
parts `addRoute` computed from the raw path. -/
theorem key_split_tail (m : HttpMethod) (p : String) :
    (jsSplit (m.str ++ p)).tail = (jsSplit p).tail :=
  jsSplit_append_tail _ _ (methodStr_no_slash m)

theorem splitChars_of_no_slash (cs : List Char) (hx : '/' ∉ cs) (acc : List Char) :
    splitChars cs acc = [String.mk (acc.reverse ++ cs)] := by
  induction cs generalizing acc with
  | nil => simp [splitChars]
  | cons c cs ih =>
    have hc : ¬ c = '/' := by
      intro h
      subst h
      exact hx (List.mem_cons_self _ _)
    simp only [splitChars, if_neg hc]
    rw [ih (fun h => hx (List.mem_cons_of_mem _ h))]
    simp

theorem jsSplit_of_no_slash (s : String) (hs : '/' ∉ s.data) : jsSplit s = [s] := by
  unfold jsSplit
  rw [splitChars_of_no_slash s.data hs []]
  simp

theorem splitChars_length_of_slash (cs : List Char) (hx : '/' ∈ cs) (acc : List Char) :
    2 ≤ (splitChars cs acc).length := by
  induction cs generalizing acc with
  | nil => simp at hx
  | cons c cs ih =>
    simp only [splitChars]
    by_cases hc : c = '/'
    · rw [if_pos hc]
      simp only [List.length_cons]
      have h1 : 1 ≤ (splitChars cs []).length := Nat.one_le_iff_ne_zero.mpr (by
        simpa [List.length_eq_zero] using splitChars_ne_nil cs [])
      omega
    · rw [if_neg hc]
      rcases List.mem_cons.mp hx with h | h
      · exact absurd h.symm hc
      · exact ih h _

/-! ### The matching predicate -/

theorem testLoop_eq_true_iff (parts l : List String) (i : Nat) :
    testLoop parts l i = true ↔
      (i + parts.length = l.length ∧
        ∀ j part, parts.get? j = some part → jsStartsWith part '(' = false →
          l.get? (i + j) = some part) := by
  induction parts generalizing i with
  | nil =>
    simp [testLoop]
  | cons part rest ih =>
    by_cases hc : (¬ jsStartsWith part '(' ∧ ¬ l.get? i = some part)
    · rw [testLoop, if_pos hc]
      constructor
      · intro h
        exact absurd h (by simp)
      · rintro ⟨-, h2⟩
        have h0 := h2 0 part (by simp) (by
          have := hc.1
          revert this
          cases jsStartsWith part '(' <;> simp)
        exact absurd (by simpa using h0) hc.2
    · rw [testLoop, if_neg hc, ih]
      constructor
      · rintro ⟨h1, h2⟩
        refine ⟨by simp only [List.length_cons]; omega, ?_⟩
        intro j part' hget hsw
        match j with
        | 0 =>
          have hpart : part = part' := by simpa using hget
          subst hpart
          rcases Classical.not_and_iff_or_not_not.mp hc with h | h
          · rw [hsw] at h
            simp at h
          · simpa using Classical.not_not.mp h
        | j' + 1 =>
          have := h2 j' part' (by simpa using hget) hsw
          have harith : i + 1 + j' = i + (j' + 1) := by omega
          rwa [harith] at this
      · rintro ⟨h1, h2⟩
        refine ⟨by simp only [List.length_cons] at h1; omega, ?_⟩
        intro j' part' hget hsw
        have := h2 (j' + 1) part' (by simpa using hget) hsw
        have harith : i + 1 + j' = i + (j' + 1) := by omega
        rwa [← harith] at this

theorem test_eq_true_iff {β ε : Type} (r : Route β ε) (rm : HttpMethod)
    (url : Option String) :
    r.test rm url = true ↔
      (rm = r.method ∧
        r.pathParts.length = (jsSplit (url.getD "")).length ∧
        ∀ j part, r.pathParts.get? j = some part → jsStartsWith part '(' = false →
          (jsSplit (url.getD "")).get? j = some part) := by
  unfold Route.test
  by_cases hm : rm = r.method
  · rw [if_neg (by simpa using hm), testLoop_eq_true_iff]
    simp [hm]
  · rw [if_pos (by simpa using hm)]
    simp [hm]

/-! ### Route scanning -/

theorem route_append_first {β ε : Type} (bs as : Router β ε) (k : String)
    (r : Route β ε) (ctx : Context)
    (hbs : ∀ e ∈ bs, e.2.test ctx.method ctx.path = false)
    (hr : r.test ctx.method ctx.path = true) :
    route (bs ++ (k, r) :: as) ctx = dispatch k r ctx := by
  induction bs with
  | nil => simp [route, hr]
  | cons e bs ih =>
    obtain ⟨k', r'⟩ := e
    have he : r'.test ctx.method ctx.path = false :=
      hbs (k', r') (List.mem_cons_self _ _)
    simp only [List.cons_append, route, he]
    rw [if_neg (by simp [he])]
    exact ih (fun e hmem => hbs e (List.mem_cons_of_mem _ hmem))

theorem selectRoute_append_first {β ε : Type} (bs as : Router β ε) (k : String)
    (r : Route β ε) (ctx : Context)
    (hbs : ∀ e ∈ bs, e.2.test ctx.method ctx.path = false)
    (hr : r.test ctx.method ctx.path = true) :
    selectRoute (bs ++ (k, r) :: as) ctx = some (k, r) := by
  induction bs with
  | nil => simp [selectRoute, hr]
  | cons e bs ih =>
    obtain ⟨k', r'⟩ := e
    have he : r'.test ctx.method ctx.path = false :=
      hbs (k', r') (List.mem_cons_self _ _)
    simp only [List.cons_append, selectRoute]
    rw [if_neg (by simp [he])]
    exact ih (fun e hmem => hbs e (List.mem_cons_of_mem _ hmem))

theorem selectRoute_eq_none_of_no_match {β ε : Type} (router : Router β ε)
    (ctx : Context) (h : ∀ e ∈ router, e.2.test ctx.method ctx.path = false) :
    selectRoute router ctx = none := by
  induction router with
  | nil => rfl
  | cons e rest ih =>
    obtain ⟨k', r'⟩ := e
    have he : r'.test ctx.method ctx.path = false :=
      h (k', r') (List.mem_cons_self _ _)
    simp only [selectRoute]
    rw [if_neg (by simp [he])]
    exact ih (fun e hmem => h e (List.mem_cons_of_mem _ hmem))

theorem route_eq_dispatch_selectRoute {β ε : Type} (router : Router β ε)
    (ctx : Context) :
    route router ctx =
      (match selectRoute router ctx with
        | none => .ok notFound
        | some (k, r) => dispatch k r ctx) := by
  induction router with
  | nil => rfl
  | cons e rest ih =>
    obtain ⟨k', r'⟩ := e
    by_cases he : r'.test ctx.method ctx.path = true
    · simp [route, selectRoute, he]
    · simp only [route, selectRoute]
      rw [if_neg (by simpa using he), if_neg (by simpa using he)]
      exact ih

/-! ### Parameter extraction -/

theorem paramNames_cons (part : String) (rest : List String) :
    paramNames (part :: rest) =
      if jsStartsWith part '(' = true then stripParens part :: paramNames rest
      else paramNames rest := by
  simp only [paramNames, List.filter_cons]
  split
  · simp
  · rfl

theorem stripParens_mem_paramNames (parts : List String) (part : String)
    (hmem : part ∈ parts) (hsw : jsStartsWith part '(' = true) :
    stripParens part ∈ paramNames parts :=
  List.mem_map_of_mem _ (List.mem_filter_of_mem hmem hsw)

theorem objSet_of_fresh (o : ParamsMap) (k : String) (v : Option String)
    (h : ∀ n ∈ o.map Prod.fst, n ≠ k) : objSet o k v = o ++ [(k, v)] := by
  unfold objSet
  rw [if_neg]
  intro hany
  obtain ⟨e, hmem, heq⟩ := List.any_eq_true.mp hany
  exact h e.1 (List.mem_map_of_mem _ hmem) (by simpa using heq)

theorem extractLoop_parts_eq (parts l : List String) (P : ParamsMap) (i : Nat)
    (hdisj : ∀ n ∈ P.map Prod.fst, n ∉ paramNames parts)
    (hnd : (paramNames parts).Nodup) :
    extractLoop parts (.parts l) P i = .ok (P ++ expectedParams parts l i) := by
  induction parts generalizing P i with
  | nil => simp [extractLoop, expectedParams]
  | cons part rest ih =>
    by_cases hsw : jsStartsWith part '(' = true
    · rw [paramNames_cons, if_pos hsw] at hdisj hnd
      have hdisj' := hdisj
      rw [extractLoop, if_pos hsw]
      simp only [urlIndex]
      have hfresh : ∀ n ∈ P.map Prod.fst, n ≠ stripParens part := by
        intro n hn hcontra
        exact hdisj n hn (hcontra ▸ List.mem_cons_self _ _)
      rw [objSet_of_fresh P (stripParens part) (l.get? i) hfresh]
      rw [ih (P ++ [(stripParens part, l.get? i)]) (i + 1) ?_ (List.Nodup.of_cons hnd)]
      · rw [expectedParams, if_pos hsw]
        simp
      · intro n hn
        rcases List.mem_map.mp hn with ⟨e, hmem, hfst⟩
        rcases List.mem_append.mp hmem with hP | hnew
        · exact fun hbad =>
            hdisj n (hfst ▸ List.mem_map_of_mem _ hP) (List.mem_cons_of_mem _ hbad)
        · have : e = (stripParens part, l.get? i) := by simpa using hnew
          subst this
          simp only at hfst
          subst hfst
          exact (List.nodup_cons.mp hnd).1
    · rw [paramNames_cons, if_neg hsw] at hdisj hnd
      rw [extractLoop, if_neg hsw, expectedParams, if_neg hsw]
      exact ih P (i + 1) hdisj hnd

theorem expectedParams_lookup (parts l : List String) (i j : Nat) (part : String)
    (hget : parts.get? j = some part) (hsw : jsStartsWith part '(' = true)
    (hnd : (paramNames parts).Nodup) :
    (expectedParams parts l i).lookup (stripParens part) = some (l.get? (i + j)) := by
  induction parts generalizing i j with
  | nil => simp at hget
  | cons part0 rest ih =>
    match j with
    | 0 =>
      have hpart : part0 = part := by simpa using hget
      subst hpart
      rw [expectedParams, if_pos hsw]
      simp [List.lookup]
    | j' + 1 =>
      have hget' : rest.get? j' = some part := by simpa using hget
      by_cases hsw0 : jsStartsWith part0 '(' = true
      · rw [paramNames_cons, if_pos hsw0] at hnd
        rw [expectedParams, if_pos hsw0]
        have hne : (stripParens part == stripParens part0) = false := by
          rw [beq_eq_false_iff_ne]
          intro heq
          have hmem : stripParens part ∈ paramNames rest :=
            stripParens_mem_paramNames rest part (List.get?_mem hget') hsw
          exact (List.nodup_cons.mp hnd).1 (heq ▸ hmem)
        simp only [List.lookup, hne]
        have harith : i + 1 + j' = i + (j' + 1) := by omega
        rw [ih (i + 1) j' hget' (List.Nodup.of_cons hnd), harith]
      · rw [paramNames_cons, if_neg hsw0] at hnd
        rw [expectedParams, if_neg hsw0]
        have harith : i + 1 + j' = i + (j' + 1) := by omega
        rw [ih (i + 1) j' hget' hnd, harith]

theorem extractLoop_undef_of_param (parts : List String) (P : ParamsMap) (i : Nat)
    (h : ∃ part ∈ parts, jsStartsWith part '(' = true) :
    extractLoop parts .undef P i = .error () := by
  induction parts generalizing P i with
  | nil => simp at h
  | cons part rest ih =>
    by_cases hsw : jsStartsWith part '(' = true
    · rw [extractLoop, if_pos hsw]
      rfl
    · rw [extractLoop, if_neg hsw]
      obtain ⟨part', hmem, hsw'⟩ := h
      rcases List.mem_cons.mp hmem with heq | hmem'
      · exact absurd (heq ▸ hsw') hsw
      · exact ih P (i + 1) ⟨part', hmem', hsw'⟩

/-! ### Remaining shared lemmas -/

theorem mapSet_set_set {β ε : Type} (m : Router β ε) (k : String)
    (v1 v2 : Route β ε) : mapSet (mapSet m k v1) k v2 = mapSet m k v2 := by
  unfold mapSet
  by_cases h : m.any (fun e => e.1 == k) = true
  · have h2 : (m.map (fun e => if e.1 == k then (k, v1) else e)).any
        (fun e => e.1 == k) = true := by
      obtain ⟨e, hmem, heq⟩ := List.any_eq_true.mp h
      refine List.any_eq_true.mpr ⟨(k, v1), List.mem_map.mpr ⟨e, hmem, ?_⟩, by simp⟩
      rw [if_pos (show (e.1 == k) = true by simpa using heq)]
    rw [if_pos h, if_pos h2, if_pos h, List.map_map]
    refine List.map_congr_left ?_
    intro e _
    by_cases he : e.1 = k
    · simp [Function.comp, he]
    · simp [Function.comp, he]
  · have h3 : (m ++ [(k, v1)]).any (fun e => e.1 == k) = true :=
      List.any_eq_true.mpr ⟨(k, v1), by simp, by simp⟩
    rw [if_neg h, if_neg h, if_pos h3, List.map_append]
    have h4 : m.map (fun e => if e.1 == k then (k, v2) else e) = m := by
      have hfix : ∀ e ∈ m, (if e.1 == k then (k, v2) else e) = e := by
        intro e hmem
        have hne : (e.1 == k) = false :=
          Bool.eq_false_iff.mpr (fun hx => h (List.any_eq_true.mpr ⟨e, hmem, hx⟩))
        simp [hne]
      calc m.map (fun e => if e.1 == k then (k, v2) else e)
          = m.map id := List.map_congr_left hfix
        _ = m := List.map_id m
    rw [h4]
    simp

theorem routeLoop_eq {β ε : Type} (entries store : Router β ε) (ctx : Context) :
    routeLoop entries store ctx = (route entries ctx, store) := by
  induction entries with
  | nil => rfl
  | cons e rest ih =>
    obtain ⟨k, r⟩ := e
    by_cases he : r.test ctx.method ctx.path = true
    · simp [routeLoop, route, he]
    · simp only [routeLoop, route]
      rw [if_neg (by simpa using he), if_neg (by simpa using he)]
      exact ih

theorem testLoop_root_false (s : String) (hne : s ≠ "") :
    testLoop [""] (jsSplit s) 0 = false := by
  by_cases hmem : '/' ∈ s.data
  · rw [testLoop]
    split
    · rfl
    · rw [testLoop]
      have h2 := splitChars_length_of_slash s.data hmem []
      have hlen : ¬ (1 = (jsSplit s).length) := by
        unfold jsSplit
        omega
      simpa using hlen
  · rw [jsSplit_of_no_slash s hmem, testLoop]
    have hcond : ¬ jsStartsWith "" '(' ∧ ¬ ([s].get? 0 = some "") := by
      refine ⟨by decide, ?_⟩
      intro hcontra
      exact hne (by simpa using hcontra)
    rw [if_pos hcond]

/-! ### Claims -/

/-- C1 (amended): for every router, registered route (method, pattern,
handler) and request whose method equals the route's method, whose path
remainder is a present, non-empty string with exactly as many segments as
the pattern, all literal pattern segments equal to the request segment at
the same index, and no earlier-registered route matching — and whose
pattern binds pairwise-distinct parameter names — `route()` invokes that
handler exactly once, passing a params map in which every parameter
segment's name (parentheses stripped) is bound to the request segment at
the same index, and returns the handler's result unmodified. (The original
claim fails when the path remainder is the empty string, where a parameter
is bound to `undefined` rather than to the empty segment, and when a
parameter name repeats, where only the last occurrence's segment is kept;
see the counterexample.) -/
theorem route_match_invokes_handler_with_params {β ε : Type}
    (bs as : Router β ε) (m : HttpMethod) (p : String)
    (handler : Context → ParamsMap → Except ε (HttpResponse β))
    (ctx : Context) (s : String)
    (hbs : ∀ e ∈ bs, e.2.test ctx.method ctx.path = false)
    (hpath : ctx.path = some s) (hs : s ≠ "")
    (hm : ctx.method = m)
    (hlen : ((jsSplit p).tail).length = (jsSplit s).length)
    (hlit : ∀ j part, ((jsSplit p).tail).get? j = some part →
      jsStartsWith part '(' = false → (jsSplit s).get? j = some part)
    (hnd : (paramNames ((jsSplit p).tail)).Nodup) :
    ∃ P : ParamsMap,
      route (bs ++ (m.str ++ p, ⟨m, (jsSplit p).tail, handler⟩) :: as) ctx =
        (handler ctx P).mapError .handlerError ∧
      selectRoute (bs ++ (m.str ++ p, ⟨m, (jsSplit p).tail, handler⟩) :: as) ctx =
        some (m.str ++ p, ⟨m, (jsSplit p).tail, handler⟩) ∧
      ∀ j part, ((jsSplit p).tail).get? j = some part →
        jsStartsWith part '(' = true →
        P.lookup (stripParens part) = some ((jsSplit s).get? j) := by
  have htest : (Route.mk m ((jsSplit p).tail) handler).test ctx.method ctx.path = true := by
    rw [test_eq_true_iff]
    refine ⟨hm, ?_, ?_⟩
    · rw [hpath]
      simpa using hlen
    · rw [hpath]
      simpa using hlit
  have hurl : mkUrlParts ctx.path = .parts (jsSplit s) := by
    rw [hpath]
    simp [mkUrlParts, hs]
  have hextract : extractParams ((jsSplit (m.str ++ p)).tail) (mkUrlParts ctx.path) =
      .ok (expectedParams ((jsSplit p).tail) (jsSplit s) 0) := by
    rw [key_split_tail, hurl, extractParams,
      extractLoop_parts_eq _ _ [] 0 (by simp) hnd]
    simp
  refine ⟨expectedParams ((jsSplit p).tail) (jsSplit s) 0, ?_, ?_, ?_⟩
  · rw [route_append_first bs as _ _ ctx hbs htest]
    simp only [dispatch, hextract]
  · exact selectRoute_append_first bs as _ _ ctx hbs htest
  · intro j part hget hsw
    simpa using expectedParams_lookup ((jsSplit p).tail) (jsSplit s) 0 j part hget hsw hnd

/-- C1 counterexample: the claim as stated is false on the code. First, with
pattern `/(name)` and the empty-string path remainder — one segment each,
method matching, no earlier route — the handler receives `name` bound to
`undefined`, not to the request segment `""` at index 0. Second, with
pattern `/(a)/(a)` and path `x/y`, the name `a` of the parameter segment at
index 0 is bound to `"y"`, not to its request segment `"x"`. -/
theorem route_match_invokes_handler_with_params_cex :
    (route (addRoute [] .GET "/(name)" echoHandler) ⟨.GET, some ""⟩ =
      .ok { status := 200, body := .val [("name", none)] }) ∧
    (jsSplit "").get? 0 = some "" ∧
    (some (none : Option String) : Option (Option String)) ≠ some (some "") ∧
    (route (addRoute [] .GET "/(a)/(a)" echoHandler) ⟨.GET, some "x/y"⟩ =
      .ok { status := 200, body := .val [("a", some "y")] }) ∧
    List.lookup "a" [("a", some "y")] ≠ some (some "x") := by
  refine ⟨by rfl, by decide, by decide, by rfl, by decide⟩

/-- C1 witness: the amended theorem applied to the multi-parameter route of
the spec, pattern `/nodes/(nodeId)/users/(userId)/access` against path
`nodes/someNodeId/users/someUserId/access`. -/
theorem route_match_invokes_handler_with_params_witness :
    ∃ P : ParamsMap,
      route ([] ++ (HttpMethod.POST.str ++ "/nodes/(nodeId)/users/(userId)/access",
          ⟨.POST, (jsSplit "/nodes/(nodeId)/users/(userId)/access").tail, echoHandler⟩) :: [])
          ⟨.POST, some "nodes/someNodeId/users/someUserId/access"⟩ =
        (echoHandler ⟨.POST, some "nodes/someNodeId/users/someUserId/access"⟩ P).mapError
          .handlerError ∧
      selectRoute ([] ++ (HttpMethod.POST.str ++ "/nodes/(nodeId)/users/(userId)/access",
          ⟨.POST, (jsSplit "/nodes/(nodeId)/users/(userId)/access").tail, echoHandler⟩) :: [])
          ⟨.POST, some "nodes/someNodeId/users/someUserId/access"⟩ =
        some (HttpMethod.POST.str ++ "/nodes/(nodeId)/users/(userId)/access",
          ⟨.POST, (jsSplit "/nodes/(nodeId)/users/(userId)/access").tail, echoHandler⟩) ∧
      ∀ j part,
        ((jsSplit "/nodes/(nodeId)/users/(userId)/access").tail).get? j = some part →
        jsStartsWith part '(' = true →
        P.lookup (stripParens part) =
          some ((jsSplit "nodes/someNodeId/users/someUserId/access").get? j) := by
  refine route_match_invokes_handler_with_params [] [] .POST
    "/nodes/(nodeId)/users/(userId)/access" echoHandler
    ⟨.POST, some "nodes/someNodeId/users/someUserId/access"⟩
    "nodes/someNodeId/users/someUserId/access"
    (by simp) rfl (by decide) rfl (by decide) ?_ (by decide)
  intro j part hget hsw
  have hparts : (jsSplit "/nodes/(nodeId)/users/(userId)/access").tail =
      ["nodes", "(nodeId)", "users", "(userId)", "access"] := by decide
  have hsplit : jsSplit "nodes/someNodeId/users/someUserId/access" =
      ["nodes", "someNodeId", "users", "someUserId", "access"] := by decide
  rw [hparts] at hget
  rw [hsplit]
  match j with
  | 0 =>
    injection hget with h
    subst h
    rfl
  | 1 =>
    injection hget with h
    subst h
    exact absurd hsw (by decide)
  | 2 =>
    injection hget with h
    subst h
    rfl
  | 3 =>
    injection hget with h
    subst h
    exact absurd hsw (by decide)
  | 4 =>
    injection hget with h
    subst h
    rfl
  | n + 5 =>
    simp at hget

/-- C2 (amended): for every router and request for which no registered
route's predicate returns true, `route()` resolves to `{status: 404,
body: null}` and invokes no handler. (The original claim's `body:
undefined` is wrong: the source returns the literal `{ status: NOT_FOUND,
body: null }`, and `null` is distinct from `undefined`; see the
counterexample.) -/
theorem route_no_match_not_found {β ε : Type} (router : Router β ε)
    (ctx : Context)
    (h : ∀ e ∈ router, e.2.test ctx.method ctx.path = false) :
    route router ctx =
      .ok { headers := none, status := 404, body := .null } ∧
    selectRoute router ctx = none := by
  have hsel := selectRoute_eq_none_of_no_match router ctx h
  refine ⟨?_, hsel⟩
  rw [route_eq_dispatch_selectRoute, hsel]
  rfl

/-- C2 counterexample: on a request no route matches, `route()` resolves to
`{status: 404, body: null}`, which is not `{status: 404, body: undefined}`:
the two response objects differ. -/
theorem route_no_match_not_found_cex :
    route ([] : Router Unit Unit) ⟨.GET, none⟩ =
      .ok { headers := none, status := 404, body := .null } ∧
    ({ headers := none, status := 404, body := .null } : HttpResponse Unit) ≠
      { headers := none, status := 404, body := .undef } := by
  exact ⟨rfl, by decide⟩

/-- C2 witness: a router with a single GET route receives a DELETE request
for the same path; no predicate matches and the not-found response with a
null body is returned without any handler being selected. -/
theorem route_no_match_not_found_witness :
    route (addRoute [] .GET "/users/(userId)" okHandler) ⟨.DELETE, some "users/u1"⟩ =
      .ok { headers := none, status := 404, body := .null } ∧
    selectRoute (addRoute [] .GET "/users/(userId)" okHandler)
      ⟨.DELETE, some "users/u1"⟩ = none := by
  exact route_no_match_not_found _ _ (by decide)

/-- C3 (amended): `addRoute(method, pathPattern, handler)` stores under key
`method + pathPattern` exactly the route whose pattern segments are the
split pattern minus its leading piece, and that route's predicate `test`
returns true for `(requestMethod, requestPath)` iff the methods are equal,
the pattern segment count equals the request segment count, and every
pattern segment that does not begin with `(` equals the request segment at
the same index; segments beginning with `(` constrain nothing at their
position, whether or not a closing `)` is present. (The original claim
classifies a segment as literal when it is not wrapped in the delimiter
pair `(`…`)`; the code checks only the opening `(`, so on a segment such
as `(id` the original iff is false of the code — see the counterexample.) -/
theorem addRoute_stored_test_iff {β ε : Type} (method : HttpMethod)
    (path : String)
    (handler : Context → ParamsMap → Except ε (HttpResponse β))
    (rm : HttpMethod) (url : Option String) :
    addRoute ([] : Router β ε) method path handler =
      [(method.str ++ path, ⟨method, (jsSplit path).tail, handler⟩)] ∧
    ((Route.mk method ((jsSplit path).tail) handler : Route β ε).test rm url = true ↔
      (rm = method ∧
        ((jsSplit path).tail).length = (jsSplit (url.getD "")).length ∧
        ∀ j part, ((jsSplit path).tail).get? j = some part →
          jsStartsWith part '(' = false →
          (jsSplit (url.getD "")).get? j = some part)) :=
  ⟨rfl, test_eq_true_iff _ _ _⟩

/-- C3 counterexample: the stored predicate of the route registered for
pattern `/users/(id` accepts the request path `users/42`. Under the
original claim's classification the segment `(id` — which begins with `(`
but is not wrapped in the pair, as it does not end with `)` — is a literal
that only the exact request segment `(id` could match, and `42` differs
from it; the predicate nonetheless returns true, so the original iff is
false of the code. -/
theorem addRoute_stored_test_iff_cex :
    ((Route.mk .GET ((jsSplit "/users/(id").tail) okHandler :
        Route ParamsMap Unit)).test .GET (some "users/42") = true ∧
    jsStartsWith "(id" '(' = true ∧
    jsEndsWith "(id" ')' = false ∧
    "42" ≠ "(id" :=
  ⟨by decide, by decide, by decide, by decide⟩

/-- C4 (confirmed): with pattern `/` registered for GET, a GET request with
an absent or empty path remainder invokes that handler with an empty params
object and gets its result back; a GET request with any non-empty path
remainder does not match the root route, so nothing is selected and the
not-found response is returned. -/
theorem root_route_empty_path {β ε : Type}
    (handler : Context → ParamsMap → Except ε (HttpResponse β)) :
    route (addRoute [] .GET "/" handler) ⟨.GET, none⟩ =
      (handler ⟨.GET, none⟩ []).mapError .handlerError ∧
    route (addRoute [] .GET "/" handler) ⟨.GET, some ""⟩ =
      (handler ⟨.GET, some ""⟩ []).mapError .handlerError ∧
    ∀ s : String, s ≠ "" →
      selectRoute (addRoute [] .GET "/" handler) ⟨.GET, some s⟩ = none ∧
      route (addRoute [] .GET "/" handler) ⟨.GET, some s⟩ = .ok notFound := by
  refine ⟨rfl, rfl, ?_⟩
  intro s hs
  have htest : (Route.mk .GET ((jsSplit "/").tail) handler).test .GET (some s) = false := by
    unfold Route.test
    rw [if_neg (by simp)]
    have hparts : (jsSplit "/").tail = [""] := by decide
    rw [hparts]
    exact testLoop_root_false s hs
  have hsel : selectRoute (addRoute [] .GET "/" handler) ⟨.GET, some s⟩ = none := by
    show selectRoute [((HttpMethod.GET).str ++ "/", _)] _ = none
    simp only [selectRoute]
    rw [if_neg (by simpa using htest)]
  refine ⟨hsel, ?_⟩
  rw [route_eq_dispatch_selectRoute, hsel]

/-- C4 witness: the theorem instantiated at a concrete handler and the
non-empty remainder `"ping"`. -/
theorem root_route_empty_path_witness :
    route (addRoute [] .GET "/" okHandler) ⟨.GET, none⟩ =
      (okHandler ⟨.GET, none⟩ []).mapError .handlerError ∧
    selectRoute (addRoute [] .GET "/" okHandler) ⟨.GET, some "ping"⟩ = none :=
  ⟨(root_route_empty_path okHandler).1,
    ((root_route_empty_path okHandler).2.2 "ping" (by decide)).1⟩

/-- C5 (confirmed): `route()` scans the registered routes in registration
order and dispatches to the first whose predicate accepts the request; any
later routes — including ones whose predicates would also accept it — are
ignored. -/
theorem route_first_match_wins {β ε : Type} (bs as : Router β ε) (k : String)
    (r : Route β ε) (ctx : Context)
    (hbs : ∀ e ∈ bs, e.2.test ctx.method ctx.path = false)
    (hr : r.test ctx.method ctx.path = true) :
    route (bs ++ (k, r) :: as) ctx = dispatch k r ctx ∧
    selectRoute (bs ++ (k, r) :: as) ctx = some (k, r) :=
  ⟨route_append_first bs as k r ctx hbs hr,
    selectRoute_append_first bs as k r ctx hbs hr⟩

/-- C5 witness: two routes registered for GET whose predicates both accept
the request path `route/v`; the earlier-registered one is dispatched. -/
theorem route_first_match_wins_witness :
    route ([] ++ ("GET/route/(p)",
        (⟨.GET, ["route", "(p)"], echoHandler⟩ : Route ParamsMap Unit)) ::
        [("GET/route/(x)", ⟨.GET, ["route", "(x)"], echoHandler⟩)])
      ⟨.GET, some "route/v"⟩ =
      dispatch "GET/route/(p)" ⟨.GET, ["route", "(p)"], echoHandler⟩
        ⟨.GET, some "route/v"⟩ ∧
    selectRoute ([] ++ ("GET/route/(p)",
        (⟨.GET, ["route", "(p)"], echoHandler⟩ : Route ParamsMap Unit)) ::
        [("GET/route/(x)", ⟨.GET, ["route", "(x)"], echoHandler⟩)])
      ⟨.GET, some "route/v"⟩ =
      some ("GET/route/(p)", ⟨.GET, ["route", "(p)"], echoHandler⟩) :=
  route_first_match_wins [] [("GET/route/(x)", ⟨.GET, ["route", "(x)"], echoHandler⟩)]
    "GET/route/(p)" ⟨.GET, ["route", "(p)"], echoHandler⟩
    ⟨.GET, some "route/v"⟩ (by simp) (by decide)

/-- C6 (amended): a pattern segment is treated as a parameter segment —
matching any request value at its position and binding a name — if and only
if it begins with `(`; the closing `)` is never checked, and every
parenthesis character anywhere in the segment is stripped to form the
parameter name. Every other segment is a literal requiring exact string
equality. (The original "begins with `(` and ends with `)`" claim is wrong:
a segment such as `(x` with no closing parenthesis is still treated as a
parameter; see the counterexample.) -/
theorem param_segment_iff_starts_paren {β ε : Type} (m : HttpMethod)
    (handler : Context → ParamsMap → Except ε (HttpResponse β))
    (part s : String) (hs : '/' ∉ s.data) :
    ((Route.mk m [part] handler : Route β ε).test m (some s) = true ↔
      (jsStartsWith part '(' = true ∨ s = part)) ∧
    extractParams [part] (.parts [s]) =
      .ok (if jsStartsWith part '(' = true then [(stripParens part, some s)] else []) := by
  constructor
  · have hred : (Route.mk m [part] handler : Route β ε).test m (some s) =
        if ¬ jsStartsWith part '(' ∧ ¬ ([s].get? 0 = some part) then false else true := by
      unfold Route.test
      rw [if_neg (by simp), show (some s).getD "" = s from rfl,
        jsSplit_of_no_slash s hs, testLoop]
      by_cases hc : (¬ jsStartsWith part '(' ∧ ¬ ([s].get? 0 = some part))
      · rw [if_pos hc, if_pos hc]
      · rw [if_neg hc, if_neg hc]
        rfl
    rw [hred]
    by_cases hc : (¬ jsStartsWith part '(' ∧ ¬ ([s].get? 0 = some part))
    · rw [if_pos hc]
      simp only [Bool.false_eq_true, false_iff]
      rintro (hsw | heq)
      · exact hc.1 hsw
      · exact hc.2 (by simp [heq])
    · rw [if_neg hc]
      constructor
      · intro _
        rcases Classical.not_and_iff_or_not_not.mp hc with h | h
        · exact Or.inl (Classical.not_not.mp h)
        · exact Or.inr (by simpa using Classical.not_not.mp h)
      · intro _
        rfl
  · by_cases hsw : jsStartsWith part '(' = true
    · rw [extractParams, extractLoop, if_pos hsw, if_pos hsw]
      rfl
    · rw [extractParams, extractLoop, if_neg hsw, if_neg hsw]
      rfl

/-- C6 counterexample: the segment `(x` begins with `(` but does not end
with `)`, so under the claim it would be a literal matching only the exact
string `(x`; the code nonetheless treats it as a parameter: it matches the
request value `hello` and binds the stripped name `x` to it. -/
theorem param_segment_iff_starts_paren_cex :
    ((⟨.GET, ["(x"], okHandler⟩ : Route ParamsMap Unit)).test .GET (some "hello") = true ∧
    jsEndsWith "(x" ')' = false ∧
    "hello" ≠ "(x" ∧
    route (addRoute [] .GET "/(x" echoHandler) ⟨.GET, some "hello"⟩ =
      .ok { status := 200, body := .val [("x", some "hello")] } :=
  ⟨by decide, by decide, by decide, by rfl⟩

/-- C6 witness: the amended theorem applied to the unterminated parameter
segment `(x` and the request value `hello`. -/
theorem param_segment_iff_starts_paren_witness :
    ((⟨.GET, ["(x"], okHandler⟩ : Route ParamsMap Unit)).test .GET (some "hello") = true ∧
    extractParams ["(x"] (.parts ["hello"]) = .ok [("x", some "hello")] := by
  have h := param_segment_iff_starts_paren .GET okHandler "(x" "hello" (by decide)
  refine ⟨h.1.mpr (Or.inl (by decide)), ?_⟩
  rw [h.2]
  rfl

/-- C7 (confirmed): registering twice with the same method and the same raw
path keeps only the second registration — the router built by the two calls
is the very router the second call alone would have built, so every
subsequent request behaves as if only the later handler had been
registered and the earlier handler is never invoked. -/
theorem addRoute_same_key_overwrites {β ε : Type} (router : Router β ε)
    (m : HttpMethod) (p : String)
    (h1 h2 : Context → ParamsMap → Except ε (HttpResponse β)) :
    addRoute (addRoute router m p h1) m p h2 = addRoute router m p h2 ∧
    ∀ ctx, route (addRoute (addRoute router m p h1) m p h2) ctx =
      route (addRoute router m p h2) ctx := by
  have hmain : addRoute (addRoute router m p h1) m p h2 = addRoute router m p h2 :=
    mapSet_set_set router (m.str ++ p) _ _
  exact ⟨hmain, fun ctx => by rw [hmain]⟩

/-- C8 (confirmed): `route()` never mutates the route collection: with the
backing store threaded explicitly through the dispatch loop, the store that
comes out is exactly the store that went in, and the response is the usual
one — so any sequence of `route()` calls observes the same registrations. -/
theorem route_leaves_routes_unchanged {β ε : Type} (router : Router β ε)
    (ctx : Context) :
    routeSt router ctx = (route router ctx, router) :=
  routeLoop_eq router router ctx

/-- C9 (confirmed): when the dispatched handler's asynchronous result is a
rejection with error `e`, `route()` fails with that same handler error,
unchanged: no catching, transforming, retrying or replacing. -/
theorem handler_rejection_propagates {β ε : Type} (router : Router β ε)
    (ctx : Context) (k : String) (r : Route β ε) (P : ParamsMap) (e : ε)
    (hsel : selectRoute router ctx = some (k, r))
    (hex : extractParams ((jsSplit k).tail) (mkUrlParts ctx.path) = .ok P)
    (hfail : r.handler ctx P = .error e) :
    route router ctx = .error (.handlerError e) := by
  rw [route_eq_dispatch_selectRoute, hsel]
  show dispatch k r ctx = _
  unfold dispatch
  rw [hex]
  show Except.mapError JsError.handlerError (r.handler ctx P) = _
  rw [hfail]
  rfl

/-- C9 witness: a registered handler that rejects with the error `42`;
`route()` fails with exactly that handler error. -/
theorem handler_rejection_propagates_witness :
    route (addRoute [] .GET "/boom" failHandler) ⟨.GET, some "boom"⟩ =
      .error (.handlerError 42) :=
  handler_rejection_propagates _ _ "GET/boom" ⟨.GET, ["boom"], failHandler⟩ [] 42
    rfl rfl rfl

/-- C10 (confirmed): when the dispatched route's key-derived pattern contains
a parameter segment and the request's path remainder is absent, `urlParts`
is `undefined` rather than a segment array, so indexing it during parameter
extraction throws: `route()` fails with a TypeError instead of returning a
response, and no handler is invoked. -/
theorem route_absent_path_param_throws {β ε : Type} (router : Router β ε)
    (m : HttpMethod) (k : String) (r : Route β ε)
    (hsel : selectRoute router ⟨m, none⟩ = some (k, r))
    (hparam : ∃ part ∈ (jsSplit k).tail, jsStartsWith part '(' = true) :
    route router ⟨m, none⟩ = .error .typeError := by
  rw [route_eq_dispatch_selectRoute, hsel]
  show dispatch k r ⟨m, none⟩ = _
  unfold dispatch
  rw [show mkUrlParts (Context.mk m none).path = .undef from rfl, extractParams,
    extractLoop_undef_of_param _ _ _ hparam]

/-- C10 witness: pattern `/(name)` matches a GET request with an absent path
remainder (the predicate defaults the url to the empty string), and the
subsequent parameter extraction throws. -/
theorem route_absent_path_param_throws_witness :
    route (addRoute [] .GET "/(name)" okHandler) ⟨.GET, none⟩ = .error .typeError :=
  route_absent_path_param_throws _ .GET "GET/(name)" ⟨.GET, ["(name)"], okHandler⟩
    rfl (by decide)
